import Mathlib

set_option maxRecDepth 16000

/-!
Verification of `CalcTopoIndex.c` (DHSVM): the TOPMODEL topographic-index
kernel.  The C code works with `float` grids; all of its arithmetic on the
quantities the claims are about lives in the field ℚ(√2): elevations, cell
sizes and the 0.4/0.6 contour weights are rationals, and the only irrational
constant is `length_diagonal = sqrt(DMASS² + DMASS²) = DMASS·√2`.  We
therefore model every stored numeric value exactly in a computable copy of
ℚ(√2), written `Q2` below, so that concrete runs of the embedded algorithm
can be evaluated by `decide`.
-/

/-- An element `u + v·√2` of the field ℚ(√2), represented exactly by the two
rational coordinates. -/
@[ext]
structure Q2 where
  u : ℚ
  v : ℚ
deriving DecidableEq

namespace Q2

instance : Zero Q2 := ⟨⟨0, 0⟩⟩

instance : One Q2 := ⟨⟨1, 0⟩⟩

instance : Add Q2 := ⟨fun x y => ⟨x.u + y.u, x.v + y.v⟩⟩

instance : Neg Q2 := ⟨fun x => ⟨-x.u, -x.v⟩⟩

instance : Sub Q2 := ⟨fun x y => ⟨x.u - y.u, x.v - y.v⟩⟩

instance : Mul Q2 := ⟨fun x y => ⟨x.u * y.u + 2 * (x.v * y.v), x.u * y.v + x.v * y.u⟩⟩

/-- The field norm `u² - 2v²`; the denominator used to invert `u + v·√2` by
conjugation. -/
def dnm (x : Q2) : ℚ := x.u ^ 2 - 2 * x.v ^ 2

instance : Inv Q2 := ⟨fun x => ⟨x.u / dnm x, -x.v / dnm x⟩⟩

instance : Div Q2 := ⟨fun x y => x * y⁻¹⟩

instance : SMul ℕ Q2 := ⟨fun n x => ⟨n * x.u, n * x.v⟩⟩

instance : SMul ℤ Q2 := ⟨fun n x => ⟨n * x.u, n * x.v⟩⟩

instance : SMul ℚ≥0 Q2 := ⟨fun q x => ⟨q * x.u, q * x.v⟩⟩

instance : SMul ℚ Q2 := ⟨fun q x => ⟨q * x.u, q * x.v⟩⟩

instance : NatCast Q2 := ⟨fun n => ⟨n, 0⟩⟩

instance : IntCast Q2 := ⟨fun n => ⟨n, 0⟩⟩

instance : NNRatCast Q2 := ⟨fun q => ⟨q, 0⟩⟩

instance : RatCast Q2 := ⟨fun q => ⟨q, 0⟩⟩

instance : Pow Q2 ℕ := ⟨fun x n => npowRec n x⟩

instance : Pow Q2 ℤ := ⟨fun x n => zpowRec npowRec n x⟩

@[simp] theorem zero_u : (0 : Q2).u = 0 := rfl

@[simp] theorem zero_v : (0 : Q2).v = 0 := rfl

@[simp] theorem one_u : (1 : Q2).u = 1 := rfl

@[simp] theorem one_v : (1 : Q2).v = 0 := rfl

@[simp] theorem add_u (x y : Q2) : (x + y).u = x.u + y.u := rfl

@[simp] theorem add_v (x y : Q2) : (x + y).v = x.v + y.v := rfl

@[simp] theorem neg_u (x : Q2) : (-x).u = -x.u := rfl

@[simp] theorem neg_v (x : Q2) : (-x).v = -x.v := rfl

@[simp] theorem sub_u (x y : Q2) : (x - y).u = x.u - y.u := rfl

@[simp] theorem sub_v (x y : Q2) : (x - y).v = x.v - y.v := rfl

@[simp] theorem mul_u (x y : Q2) : (x * y).u = x.u * y.u + 2 * (x.v * y.v) := rfl

@[simp] theorem mul_v (x y : Q2) : (x * y).v = x.u * y.v + x.v * y.u := rfl

@[simp] theorem inv_u (x : Q2) : (x⁻¹).u = x.u / dnm x := rfl

@[simp] theorem inv_v (x : Q2) : (x⁻¹).v = -x.v / dnm x := rfl

@[simp] theorem ratCast_u (q : ℚ) : (q : Q2).u = q := rfl

@[simp] theorem ratCast_v (q : ℚ) : (q : Q2).v = 0 := rfl

/-- No rational squares to 2 (√2 is irrational). -/
theorem q_sq_ne_two (q : ℚ) : q ^ 2 ≠ 2 := by
  intro h
  have hq : ((q : ℝ)) ^ 2 = 2 := by exact_mod_cast congrArg (fun t : ℚ => (t : ℝ)) h
  have habs : Real.sqrt 2 = |(q : ℝ)| := by
    rw [← hq, Real.sqrt_sq_eq_abs]
  exact irrational_sqrt_two ⟨|q|, by rw [Rat.cast_abs, habs]⟩

/-- The canonical embedding of `Q2` into ℝ. -/
noncomputable def toReal (x : Q2) : ℝ := x.u + x.v * Real.sqrt 2

theorem sqrt2_mul_self : Real.sqrt 2 * Real.sqrt 2 = 2 :=
  Real.mul_self_sqrt (by norm_num)

theorem toReal_zero : toReal 0 = 0 := by simp [toReal]

theorem toReal_one : toReal 1 = 1 := by simp [toReal]

theorem toReal_add (x y : Q2) : toReal (x + y) = toReal x + toReal y := by
  simp [toReal]; ring

theorem toReal_neg (x : Q2) : toReal (-x) = -toReal x := by
  simp [toReal]; ring

theorem toReal_sub (x y : Q2) : toReal (x - y) = toReal x - toReal y := by
  simp [toReal]; ring

theorem toReal_mul (x y : Q2) : toReal (x * y) = toReal x * toReal y := by
  simp only [toReal, mul_u, mul_v]
  push_cast
  linear_combination (-((x.v : ℝ) * (y.v : ℝ))) * sqrt2_mul_self

theorem toReal_injective : Function.Injective toReal := by
  intro x y h
  by_cases hv : x.v = y.v
  · have : (x.u : ℝ) = y.u := by
      simp only [toReal, hv] at h
      linarith
    have hu : x.u = y.u := by exact_mod_cast this
    exact Q2.ext hu hv
  · exfalso
    have hs : Real.sqrt 2 = ((x.u - y.u) / (y.v - x.v) : ℚ) := by
      have hvne : ((y.v : ℝ) - x.v) ≠ 0 := by
        intro h0
        apply hv
        have : (x.v : ℝ) = y.v := by linarith
        exact_mod_cast this
      push_cast
      rw [eq_div_iff hvne]
      simp only [toReal] at h
      nlinarith [h]
    apply q_sq_ne_two ((x.u - y.u) / (y.v - x.v))
    have : (((x.u - y.u) / (y.v - x.v) : ℚ) : ℝ) ^ 2 = 2 := by
      rw [← hs]
      rw [sq]
      exact sqrt2_mul_self
    exact_mod_cast this

theorem toReal_eq_zero {x : Q2} : toReal x = 0 ↔ x = 0 := by
  constructor
  · intro h
    apply toReal_injective
    rw [h, toReal_zero]
  · intro h
    rw [h, toReal_zero]

theorem dnm_ne_zero {x : Q2} (hx : x ≠ 0) : dnm x ≠ 0 := by
  intro h
  unfold dnm at h
  by_cases hv : x.v = 0
  · have hu : x.u = 0 := by
      rw [hv] at h
      have : x.u ^ 2 = 0 := by linarith
      exact pow_eq_zero_iff (n := 2) (by norm_num) |>.mp this
    exact hx (Q2.ext hu hv)
  · apply q_sq_ne_two (x.u / x.v)
    field_simp
    linarith

theorem toReal_ne_zero {x : Q2} (hx : x ≠ 0) : toReal x ≠ 0 := by
  intro h
  exact hx (toReal_eq_zero.mp h)

theorem toReal_inv (x : Q2) : toReal x⁻¹ = (toReal x)⁻¹ := by
  by_cases hx : x = 0
  · subst hx
    show toReal ⟨0 / dnm 0, -0 / dnm 0⟩ = (toReal 0)⁻¹
    rw [toReal_zero]
    simp [toReal]
  · have hD : dnm x ≠ 0 := dnm_ne_zero hx
    have hDR : ((dnm x : ℚ) : ℝ) ≠ 0 := by exact_mod_cast hD
    have hdef : ((dnm x : ℚ) : ℝ) = (x.u : ℝ) ^ 2 - 2 * (x.v : ℝ) ^ 2 := by
      unfold dnm; push_cast; ring
    apply eq_inv_of_mul_eq_one_right
    show toReal x * toReal ⟨x.u / dnm x, -x.v / dnm x⟩ = 1
    simp only [toReal]
    push_cast
    field_simp
    rw [hdef]
    linear_combination (-(x.v : ℝ) ^ 2) * sqrt2_mul_self

theorem toReal_div (x y : Q2) : toReal (x / y) = toReal x / toReal y := by
  show toReal (x * y⁻¹) = _
  rw [toReal_mul, toReal_inv, div_eq_mul_inv]

theorem toReal_nsmul (n : ℕ) (x : Q2) : toReal (n • x) = n • toReal x := by
  show toReal ⟨n * x.u, n * x.v⟩ = _
  simp [toReal]; ring

theorem toReal_zsmul (n : ℤ) (x : Q2) : toReal (n • x) = n • toReal x := by
  show toReal ⟨n * x.u, n * x.v⟩ = _
  simp [toReal]; ring

theorem toReal_nnqsmul (q : ℚ≥0) (x : Q2) : toReal (q • x) = q • toReal x := by
  show toReal ⟨q * x.u, q * x.v⟩ = _
  simp [toReal, NNRat.smul_def]; ring

theorem toReal_qsmul (q : ℚ) (x : Q2) : toReal (q • x) = q • toReal x := by
  show toReal ⟨q * x.u, q * x.v⟩ = _
  simp [toReal, Rat.smul_def]; ring

theorem toReal_npow (x : Q2) (n : ℕ) : toReal (x ^ n) = toReal x ^ n := by
  induction n with
  | zero => show toReal 1 = _; rw [toReal_one]; simp
  | succ k ih =>
      show toReal (npowRec (k + 1) x) = _
      show toReal (npowRec k x * x) = _
      rw [toReal_mul]
      have : toReal (npowRec k x) = toReal x ^ k := ih
      rw [this, pow_succ]

theorem toReal_zpow (x : Q2) (n : ℤ) : toReal (x ^ n) = toReal x ^ n := by
  cases n with
  | ofNat k =>
      show toReal (zpowRec npowRec (Int.ofNat k) x) = _
      unfold zpowRec
      rw [show toReal (npowRec k x) = toReal x ^ k from toReal_npow x k]
      simp
  | negSucc k =>
      show toReal (zpowRec npowRec (Int.negSucc k) x) = _
      unfold zpowRec
      rw [toReal_inv]
      rw [show toReal (npowRec (k + 1) x) = toReal x ^ (k + 1) from toReal_npow x (k + 1)]
      simp [zpow_negSucc]

theorem toReal_natCast (n : ℕ) : toReal n = n := by
  show toReal ⟨n, 0⟩ = _
  simp [toReal]

theorem toReal_intCast (n : ℤ) : toReal n = n := by
  show toReal ⟨n, 0⟩ = _
  simp [toReal]

theorem toReal_nnratCast (q : ℚ≥0) : toReal q = q := by
  show toReal ⟨q, 0⟩ = _
  simp [toReal]

theorem toReal_ratCast (q : ℚ) : toReal q = q := by
  show toReal ⟨q, 0⟩ = _
  simp [toReal]

instance : Field Q2 :=
  Function.Injective.field toReal toReal_injective toReal_zero toReal_one toReal_add
    toReal_mul toReal_neg toReal_sub toReal_inv toReal_div toReal_nsmul toReal_zsmul
    toReal_nnqsmul toReal_qsmul toReal_npow toReal_zpow toReal_natCast toReal_intCast
    toReal_nnratCast toReal_ratCast

/-- Computable nonnegativity test for `u + v·√2`, by sign cases on the two
coordinates. -/
def nonneg (x : Q2) : Prop :=
  (0 ≤ x.u ∧ 0 ≤ x.v) ∨ (0 ≤ x.u ∧ 2 * x.v ^ 2 ≤ x.u ^ 2) ∨ (0 ≤ x.v ∧ x.u ^ 2 ≤ 2 * x.v ^ 2)

instance (x : Q2) : Decidable (nonneg x) :=
  inferInstanceAs (Decidable ((0 ≤ x.u ∧ 0 ≤ x.v) ∨ (0 ≤ x.u ∧ 2 * x.v ^ 2 ≤ x.u ^ 2) ∨
    (0 ≤ x.v ∧ x.u ^ 2 ≤ 2 * x.v ^ 2)))

theorem nonneg_iff {x : Q2} : nonneg x ↔ 0 ≤ toReal x := by
  obtain ⟨a, b⟩ := x
  show nonneg ⟨a, b⟩ ↔ 0 ≤ (a : ℝ) + (b : ℝ) * Real.sqrt 2
  have hs2 : Real.sqrt 2 * Real.sqrt 2 = 2 := sqrt2_mul_self
  have hs0 : (0 : ℝ) < Real.sqrt 2 := Real.sqrt_pos.mpr (by norm_num)
  constructor
  · rintro (⟨ha, hb⟩ | ⟨ha, hab⟩ | ⟨hb, hab⟩)
    · have ha' : (0 : ℝ) ≤ a := by exact_mod_cast ha
      have hb' : (0 : ℝ) ≤ b := by exact_mod_cast hb
      nlinarith
    · have ha' : (0 : ℝ) ≤ a := by exact_mod_cast ha
      have hab' : 2 * (b : ℝ) ^ 2 ≤ (a : ℝ) ^ 2 := by exact_mod_cast hab
      rcases le_or_lt 0 (b : ℝ) with hb' | hb'
      · nlinarith
      · nlinarith [sq_nonneg ((a : ℝ) + b * Real.sqrt 2)]
    · have hb' : (0 : ℝ) ≤ b := by exact_mod_cast hb
      have hab' : (a : ℝ) ^ 2 ≤ 2 * (b : ℝ) ^ 2 := by exact_mod_cast hab
      rcases le_or_lt 0 (a : ℝ) with ha' | ha'
      · nlinarith
      · by_contra hc
        have h2 : (0 : ℝ) ≤ (b : ℝ) * Real.sqrt 2 := mul_nonneg hb' hs0.le
        have h1 : (0 : ℝ) < -(a : ℝ) - (b : ℝ) * Real.sqrt 2 := by linarith [not_le.mp hc]
        have h3 : (0 : ℝ) < -(a : ℝ) + (b : ℝ) * Real.sqrt 2 := by linarith
        nlinarith [mul_pos h1 h3, hs2]
  · intro h
    rcases le_or_lt 0 a with ha | ha <;> rcases le_or_lt 0 b with hb | hb
    · exact Or.inl ⟨ha, hb⟩
    · refine Or.inr (Or.inl ⟨ha, ?_⟩)
      have ha' : (0 : ℝ) ≤ a := by exact_mod_cast ha
      have hb' : (b : ℝ) < 0 := by exact_mod_cast hb
      have h1 : (0 : ℝ) < -(b : ℝ) * Real.sqrt 2 := mul_pos (by linarith) hs0
      have h3 : -(b : ℝ) * Real.sqrt 2 ≤ (a : ℝ) := by linarith
      have h4 : -(b : ℝ) * Real.sqrt 2 * (-(b : ℝ) * Real.sqrt 2) ≤ (a : ℝ) * (a : ℝ) :=
        mul_le_mul h3 h3 h1.le ha'
      have : 2 * (b : ℝ) ^ 2 ≤ (a : ℝ) ^ 2 := by nlinarith [h4, hs2]
      exact_mod_cast this
    · refine Or.inr (Or.inr ⟨hb, ?_⟩)
      have ha' : (a : ℝ) < 0 := by exact_mod_cast ha
      have hb' : (0 : ℝ) ≤ b := by exact_mod_cast hb
      have : (a : ℝ) ^ 2 ≤ 2 * (b : ℝ) ^ 2 := by nlinarith
      exact_mod_cast this
    · exfalso
      have ha' : (a : ℝ) < 0 := by exact_mod_cast ha
      have hb' : (b : ℝ) < 0 := by exact_mod_cast hb
      nlinarith

instance : LE Q2 := ⟨fun x y => nonneg (y - x)⟩

instance : LT Q2 := ⟨fun x y => ¬ nonneg (x - y)⟩

theorem le_iff {x y : Q2} : x ≤ y ↔ toReal x ≤ toReal y := by
  show nonneg (y - x) ↔ _
  rw [nonneg_iff, toReal_sub]
  constructor <;> intro h <;> linarith

theorem lt_iff {x y : Q2} : x < y ↔ toReal x < toReal y := by
  show ¬ nonneg (x - y) ↔ _
  rw [nonneg_iff, toReal_sub]
  constructor <;> intro h <;> [skip; intro hc] <;> [nlinarith [not_le.mp h]; nlinarith]

instance : LinearOrder Q2 where
  le := (· ≤ ·)
  lt := (· < ·)
  le_refl x := le_iff.mpr le_rfl
  le_trans x y z h1 h2 := le_iff.mpr ((le_iff.mp h1).trans (le_iff.mp h2))
  le_antisymm x y h1 h2 := toReal_injective ((le_iff.mp h1).antisymm (le_iff.mp h2))
  le_total x y := (le_total (toReal x) (toReal y)).imp le_iff.mpr le_iff.mpr
  lt_iff_le_not_le x y := by
    rw [lt_iff, le_iff, le_iff]
    exact lt_iff_le_not_le
  decidableLE x y := inferInstanceAs (Decidable (nonneg (y - x)))
  decidableLT x y := inferInstanceAs (Decidable ¬ (nonneg (x - y)))
  decidableEq x y := inferInstanceAs (Decidable (x = y))

instance : LinearOrderedField Q2 :=
  { (inferInstance : Field Q2), (inferInstance : LinearOrder Q2) with
    add_le_add_left := fun x y h c => by
      rw [le_iff, toReal_add, toReal_add]
      exact add_le_add_left (le_iff.mp h) _
    zero_le_one := by
      rw [le_iff, toReal_zero, toReal_one]
      norm_num
    mul_pos := fun x y hx hy => by
      rw [lt_iff, toReal_zero, toReal_mul]
      exact mul_pos (by rw [lt_iff, toReal_zero] at hx; exact hx)
        (by rw [lt_iff, toReal_zero] at hy; exact hy) }

theorem ratCast_le_ratCast {p q : ℚ} (h : p ≤ q) : (p : Q2) ≤ (q : Q2) := by
  rw [le_iff, toReal_ratCast, toReal_ratCast]
  exact_mod_cast h

theorem ratCast_lt_ratCast {p q : ℚ} (h : p < q) : (p : Q2) < (q : Q2) := by
  rw [lt_iff, toReal_ratCast, toReal_ratCast]
  exact_mod_cast h

theorem ratCast_nonneg {q : ℚ} (h : 0 ≤ q) : (0 : Q2) ≤ (q : Q2) := by
  have := ratCast_le_ratCast h
  simpa using this

theorem ratCast_pos {q : ℚ} (h : 0 < q) : (0 : Q2) < (q : Q2) := by
  have := ratCast_lt_ratCast h
  simpa using this

end Q2

/-!
The embedding of `CalcTopoIndex.c`.  Row index `y` and column index `x` are
integers (the C neighbor arithmetic `x + xneighbor[n]` can step off the
grid, which `valid_cell_fine` guards).  A 2-D `float` grid is modelled as a
total function `ℤ → ℤ → _` applied as `g y x`, matching the C indexing
`g[y][x]`; the algorithm only ever reads or writes in-range entries.
-/

/-- One entry of `Map->OrderedCellsfine` (fields `.x` and `.y`). -/
@[ext]
structure Coord where
  x : ℤ
  y : ℤ
deriving DecidableEq

/-- The parts of `MAPSIZE` that `CalcTopoIndex` reads: fine-grid dimensions
`NXfine`, `NYfine`, the fine cell size `DMASS`, and the externally supplied
cell sequence `OrderedCellsfine` (its length is `NumCellsfine`). -/
structure MapSize where
  NXfine : ℤ
  NYfine : ℤ
  DMASS : ℚ
  orderedCellsFine : List Coord

/-- One `FINEPIX` record: basin mask, DEM elevation, and the output
topographic-index slot.  The C stores `log(a/tanbeta)` in `TopoIndex`;
since `log` is a fixed strictly monotone injection on the positives and no
claim depends on the numeric value of the logarithm itself, we store its
argument `a/tanbeta` exactly. -/
structure FinePix where
  Mask : Bool
  Dem : ℚ
  TopoIndex : Q2
deriving DecidableEq

/-- A fine-resolution grid of `FINEPIX` records, indexed `fm y x` like the C
`FineMap[y][x]`. -/
def FineGrid : Type := ℤ → ℤ → FinePix

/-- The constant `VERTRES` (`#define VERTRES 1`, `CalcTopoIndex.c` line 24):
vertical resolution of the DEM. -/
def VERTRES : ℚ := 1

/-- Modelled from the spec: the sentinel "outside" elevation `OUTSIDEBASIN`
comes from `settings.h`, which is not part of the given sources; DHSVM
defines it as `0`.  The spec only calls it "a sentinel outside value"; none
of the results below depend on which rational it is. -/
def OUTSIDEBASIN : ℚ := 0

/-- Modelled from the spec: `valid_cell_fine` (declared in `slopeaspect.h`,
body not in the given sources) — whether `(x, y)` lies on the fine grid
("if the neighbor lies outside the grid", spec section 4.1 step 1). -/
def valid_cell_fine (m : MapSize) (x y : ℤ) : Prop :=
  0 ≤ x ∧ x < m.NXfine ∧ 0 ≤ y ∧ y < m.NYfine

instance (m : MapSize) (x y : ℤ) : Decidable (valid_cell_fine m x y) :=
  inferInstanceAs (Decidable (0 ≤ x ∧ x < m.NXfine ∧ 0 ≤ y ∧ y < m.NYfine))

/-- `xneighbor` for `NDIRSfine == 8` (lines 91-97): the initializer
`{-1, 0, 1, 1, 1, 0, -1, -1}`. -/
def xneighbor : Fin 8 → ℤ
  | 0 => -1
  | 1 => 0
  | 2 => 1
  | 3 => 1
  | 4 => 1
  | 5 => 0
  | 6 => -1
  | 7 => -1

/-- `yneighbor` for `NDIRSfine == 8` (lines 98-104): the initializer
`{1, 1, 1, 0, -1, -1, -1, 0}`. -/
def yneighbor : Fin 8 → ℤ
  | 0 => 1
  | 1 => 1
  | 2 => 1
  | 3 => 0
  | 4 => -1
  | 5 => -1
  | 6 => -1
  | 7 => 0

/-- The neighbor-elevation fill (lines 146-154): slot `n` of
`neighbor_elev` holds the neighbor's DEM elevation, or `OUTSIDEBASIN` when
the neighbor is off the grid or outside the basin mask. -/
def neighborElev (m : MapSize) (fm : FineGrid) (x y : ℤ) (n : Fin 8) : ℚ :=
  let xn := x + xneighbor n
  let yn := y + yneighbor n
  if valid_cell_fine m xn yn then
    (if (fm yn xn).Mask then (fm yn xn).Dem else OUTSIDEBASIN)
  else OUTSIDEBASIN

/-- The in-loop sentinel replacement (lines 162-163): a slot equal to
`OUTSIDEBASIN` is replaced by the center elevation `celev`, i.e. treated as
flat.  Both the slope loop and the routing loop read the replaced values. -/
def effElev (m : MapSize) (fm : FineGrid) (x y : ℤ) (n : Fin 8) : ℚ :=
  if neighborElev m fm x y n = OUTSIDEBASIN then (fm y x).Dem else neighborElev m fm x y n

/-- The guard `neighbor_elev[n] < celev` (lines 167 and 196) on the
sentinel-replaced slots: slot `n` drains the processed cell. -/
def isLower (m : MapSize) (fm : FineGrid) (x y : ℤ) (n : Fin 8) : Prop :=
  effElev m fm x y n < (fm y x).Dem

instance (m : MapSize) (fm : FineGrid) (x y : ℤ) (n : Fin 8) :
    Decidable (isLower m fm x y n) :=
  inferInstanceAs (Decidable (effElev m fm x y n < (fm y x).Dem))

/-- The test `n==0 || n==2 || n==4 || n==6` (line 168): slots 0, 2, 4, 6 are
the diagonal neighbors. -/
def isDiagonal (n : Fin 8) : Prop := n = 0 ∨ n = 2 ∨ n = 4 ∨ n = 6

instance (n : Fin 8) : Decidable (isDiagonal n) :=
  inferInstanceAs (Decidable (n = 0 ∨ n = 2 ∨ n = 4 ∨ n = 6))

/-- `length_diagonal = sqrt(dx² + dy²)` with `dx = dy = Map->DMASS`
(lines 130-132), i.e. exactly `|DMASS|·√2`.  The C stores `DMASS` into
`int` variables `dx, dy`; for the whole-number cell sizes the program uses
(the raster header prints `cellsize` with `%.0f`) that conversion is the
identity, and we keep the cell size as an exact rational. -/
def lengthDiagonal (m : MapSize) : Q2 := ⟨0, |m.DMASS|⟩

/-- `temp_slope[n]` (lines 169 and 176): drop to the neighbor over the
diagonal length for diagonal slots, over `Map->DMASS` for orthogonal
slots. -/
def tempSlope (m : MapSize) (fm : FineGrid) (x y : ℤ) (n : Fin 8) : Q2 :=
  if isDiagonal n then
    (((fm y x).Dem - effElev m fm x y n : ℚ) : Q2) / lengthDiagonal m
  else
    (((fm y x).Dem - effElev m fm x y n : ℚ) : Q2) / ((m.DMASS : ℚ) : Q2)

/-- The contour-length contribution of slot `n`: `0.4*Map->DMASS` for
diagonal slots (line 170), `0.6*Map->DMASS` for orthogonal ones
(line 177). -/
def contourContrib (m : MapSize) (n : Fin 8) : ℚ :=
  if isDiagonal n then 0.4 * m.DMASS else 0.6 * m.DMASS

/-- The C variable `lower` after the slope loop (lines 160, 184): it counts
the slots that are NOT strictly lower (the `else lower++` branch). -/
def lowerCount (m : MapSize) (fm : FineGrid) (x y : ℤ) : ℕ :=
  (Finset.univ.filter (fun n : Fin 8 => ¬ isLower m fm x y n)).card

/-- The total added to `tanbeta[y][x]` by the slope loop (lines 171 and
178): `temp_slope[n] * contour_contribution` summed over the strictly lower
slots.  The C accumulates these with `+=` in slot order; addition is
commutative and associative, so the loop total is this sum. -/
def tanbetaContrib (m : MapSize) (fm : FineGrid) (x y : ℤ) : Q2 :=
  ∑ n ∈ Finset.univ.filter (fun n => isLower m fm x y n),
    tempSlope m fm x y n * ((contourContrib m n : ℚ) : Q2)

/-- The total added to `contour_length[y][x]` by the slope loop (lines 170
and 177). -/
def contourTotal (m : MapSize) (fm : FineGrid) (x y : ℤ) : ℚ :=
  ∑ n ∈ Finset.univ.filter (fun n => isLower m fm x y n), contourContrib m n

/-- `delta_a[n]` (lines 172 and 179): the per-slot area flux, computed from
the area `a0 = a[y][x]` read during the slope loop (the slope loop does not
write `a`, so `a0` is the cell's area when its processing starts). -/
def deltaA (m : MapSize) (fm : FineGrid) (x y : ℤ) (a0 : Q2) (n : Fin 8) : Q2 :=
  a0 * tempSlope m fm x y n * ((contourContrib m n : ℚ) : Q2)

/-- The flat-area fallback (lines 187-192):
`tanbeta = (NDIRSfine/2)*((0.5*VERTRES)/length_diagonal)
         + (NDIRSfine/2)*((0.5*VERTRES)/DMASS)` with `NDIRSfine/2 = 4`. -/
def fallbackTanbeta (m : MapSize) : Q2 :=
  ((4 : ℚ) : Q2) * (((0.5 * VERTRES : ℚ) : Q2) / lengthDiagonal m) +
    ((4 * ((0.5 * VERTRES) / m.DMASS) : ℚ) : Q2)

/-- The routing target of slot `n`, transcribing the `switch (n)` table of
lines 197-221 (`case 0` writes `a[y+1][x-1]`, and so on); the pair is
`(column, row)`.  The `default` branch (lines 222-224) is unreachable since
`n < 8`.  Slot for slot, this table equals `(x + xneighbor n, y + yneighbor n)`
(proved below as `routeTarget_eq`). -/
def routeTarget (x y : ℤ) (n : Fin 8) : ℤ × ℤ :=
  match n with
  | 0 => (x - 1, y + 1)
  | 1 => (x, y + 1)
  | 2 => (x + 1, y + 1)
  | 3 => (x + 1, y)
  | 4 => (x + 1, y - 1)
  | 5 => (x, y - 1)
  | 6 => (x - 1, y - 1)
  | 7 => (x - 1, y)

/-- The three accumulator grids `a`, `tanbeta`, `contour_length`
(lines 86-88), each indexed `g y x`. -/
structure TopoState where
  a : ℤ → ℤ → Q2
  tanbeta : ℤ → ℤ → Q2
  contour : ℤ → ℤ → ℚ

/-- The body of one iteration of the distribution sweep for the supported
`NDIRSfine == 8` branch (lines 158-228), processing the cell `c`:

* slope loop (lines 161-185): accumulates `tanbeta[y][x]` and
  `contour_length[y][x]` over the strictly lower slots and records
  `delta_a[n]`; `lower` counts the other slots;
* flat-area fallback (lines 187-192): if no slot is strictly lower
  (`lower == 8`), `tanbeta[y][x]` is assigned the fallback constant (the
  loop contributed nothing in that case);
* routing loop (lines 195-227): for each strictly lower slot, adds
  `delta_a[n]/tanbeta[y][x]` — with the final `tanbeta` of this cell — into
  the target cell of the `switch (n)` table.  The eight targets are
  pairwise distinct, so the eight conditional `+=` amount to adding, at
  every point `(xx, yy)`, the fluxes of the slots targeting it. -/
def processCell8 (m : MapSize) (fm : FineGrid) (st : TopoState) (c : Coord) : TopoState :=
  let x := c.x
  let y := c.y
  let a0 := st.a y x
  let tb :=
    if lowerCount m fm x y = 8 then fallbackTanbeta m
    else st.tanbeta y x + tanbetaContrib m fm x y
  { a := fun yy xx => st.a yy xx +
      ∑ n ∈ Finset.univ.filter
        (fun n => isLower m fm x y n ∧ routeTarget x y n = (xx, yy)),
        deltaA m fm x y a0 n / tb,
    tanbeta := fun yy xx => if yy = y ∧ xx = x then tb else st.tanbeta yy xx,
    contour := fun yy xx =>
      if yy = y ∧ xx = x then st.contour y x + contourTotal m fm x y
      else st.contour yy xx }

/-- `dx * dy` with `dx = dy = Map->DMASS` (lines 130-131, 137). -/
def cellArea (m : MapSize) : Q2 := ((m.DMASS * m.DMASS : ℚ) : Q2)

/-- The initialization loop (lines 134-138): the grids start zero-filled
(`calloc`, lines 109-128) and `a[y][x]` is set to the cell area for every
entry of `OrderedCellsfine`, visited from the last index down to 0. -/
def initState (m : MapSize) : TopoState :=
  { a := m.orderedCellsFine.reverse.foldl
      (fun g c => fun yy xx => if yy = c.y ∧ xx = c.x then cellArea m else g yy xx)
      (fun _ _ => 0),
    tanbeta := fun _ _ => 0,
    contour := fun _ _ => 0 }

/-- The order in which the sweeps visit cells: the loops run
`for (k = NumCellsfine-1; k > -1; k--)` (lines 134, 141, 240), so the LAST
entry of `OrderedCellsfine` is visited first. -/
def visitOrder (m : MapSize) : List Coord := m.orderedCellsFine.reverse

/-- The distribution sweep (lines 141-238) in the supported
`NDIRSfine == 8` configuration. -/
def sweep (m : MapSize) (fm : FineGrid) : TopoState :=
  (visitOrder m).foldl (processCell8 m fm) (initState m)

/-- One sweep iteration with the `switch (NDIRSfine)` dispatch
(lines 158-237): any neighbor count other than 8 hits `ReportError` +
`assert(0)` (lines 230-236) before the iteration touches any grid, which we
model as an error carrying the grids as they stood at the abort. -/
def processCell (ndirs : ℕ) (m : MapSize) (fm : FineGrid) (st : TopoState) (c : Coord) :
    Except TopoState TopoState :=
  if ndirs = 8 then Except.ok (processCell8 m fm st c) else Except.error st

/-- The distribution sweep with the neighbor-count dispatch. -/
def sweepE (ndirs : ℕ) (m : MapSize) (fm : FineGrid) : Except TopoState TopoState :=
  (visitOrder m).foldlM (processCell ndirs m fm) (initState m)

/-- The finalization pass (lines 240-245): for every ordered cell, in the
same reversed loop order, write `TopoIndex = a[y][x]/tanbeta[y][x]` (the
argument of the `log`) into the cell's `FINEPIX` record.  The pass contains
no `ReportError` call and no `tanbeta == 0` guard. -/
def finalize (m : MapSize) (fm : FineGrid) (st : TopoState) : FineGrid :=
  (visitOrder m).foldl
    (fun g c => fun yy xx =>
      if yy = c.y ∧ xx = c.x then
        { g yy xx with TopoIndex := st.a c.y c.x / st.tanbeta c.y c.x }
      else g yy xx)
    fm

/-- The whole computation `CalcTopoIndex` (allocation, initialization,
distribution sweep, finalization; the diagnostic-file block of lines
253-286 is compiled out by `printmap = 0`): it returns the accumulator
grids and the updated `FineMap`, or the abort state when the unsupported
neighbor-count branch is hit. -/
def calcTopoIndex (ndirs : ℕ) (m : MapSize) (fm : FineGrid) :
    Except TopoState (TopoState × FineGrid) :=
  (sweepE ndirs m fm).map (fun st => (st, finalize m fm st))

/-- The finalization pass seen through the computation's error channel: the
C final loop (lines 240-245) has no error path, so it always returns the
written grid.  Stated this way so claims about error behavior at
finalization can be settled against it. -/
def finalizeE (m : MapSize) (fm : FineGrid) (st : TopoState) : Except Unit FineGrid :=
  Except.ok (finalize m fm st)

/-- The reading of the sweep in which the cells are visited in the order
`OrderedCellsfine` is given, first element first — following the spec's
words ("process cells in ProcessingOrder", with ProcessingOrder "sorted by
descending elevation").  Defined only to compare against `sweep`, which
follows the source's reversed loop. -/
def sweepSpecOrder (m : MapSize) (fm : FineGrid) : TopoState :=
  m.orderedCellsFine.foldl (processCell8 m fm) (initState m)

/-- The accumulator state after the distribution sweep has run over the
cells of `l` (in the order of `l`, starting from the initialized grids);
`sweep m fm = sweepPrefix m fm (visitOrder m)`. -/
def sweepPrefix (m : MapSize) (fm : FineGrid) (l : List Coord) : TopoState :=
  l.foldl (processCell8 m fm) (initState m)

/-!  Basic facts about the stencil tables and one sweep step. -/

theorem routeTarget_eq (x y : ℤ) (n : Fin 8) :
    routeTarget x y n = (x + xneighbor n, y + yneighbor n) := by
  fin_cases n <;> simp [routeTarget, xneighbor, yneighbor, Prod.ext_iff] <;> omega

theorem routeTarget_injective (x y : ℤ) {n n' : Fin 8}
    (h : routeTarget x y n = routeTarget x y n') : n = n' := by
  fin_cases n <;> fin_cases n' <;> simp_all [routeTarget] <;> omega

theorem routeTarget_ne_self (x y : ℤ) (n : Fin 8) : routeTarget x y n ≠ (x, y) := by
  fin_cases n <;> simp [routeTarget]

/-- Dissecting `isLower`: a strictly lower slot is an in-grid, in-basin
neighbor whose recorded elevation is not the sentinel and lies strictly
below the processed cell's elevation. -/
theorem isLower_target {m : MapSize} {fm : FineGrid} {x y : ℤ} {n : Fin 8}
    (h : isLower m fm x y n) :
    valid_cell_fine m (x + xneighbor n) (y + yneighbor n) ∧
      (fm (y + yneighbor n) (x + xneighbor n)).Mask = true ∧
      (fm (y + yneighbor n) (x + xneighbor n)).Dem ≠ OUTSIDEBASIN ∧
      (fm (y + yneighbor n) (x + xneighbor n)).Dem = effElev m fm x y n ∧
      (fm (y + yneighbor n) (x + xneighbor n)).Dem < (fm y x).Dem := by
  have hlt : effElev m fm x y n < (fm y x).Dem := h
  have hraw : neighborElev m fm x y n ≠ OUTSIDEBASIN := by
    intro hOB
    have heq : effElev m fm x y n = (fm y x).Dem := by
      unfold effElev
      rw [if_pos hOB]
    rw [heq] at hlt
    exact lt_irrefl _ hlt
  have heff : effElev m fm x y n = neighborElev m fm x y n := by
    unfold effElev
    rw [if_neg hraw]
  unfold neighborElev at hraw heff
  by_cases hv : valid_cell_fine m (x + xneighbor n) (y + yneighbor n)
  · rw [if_pos hv] at hraw heff
    by_cases hM : (fm (y + yneighbor n) (x + xneighbor n)).Mask
    · rw [if_pos hM] at hraw heff
      rw [heff] at hlt
      exact ⟨hv, hM, hraw, heff.symm, hlt⟩
    · rw [if_neg hM] at hraw
      exact absurd rfl hraw
  · rw [if_neg hv] at hraw
    exact absurd rfl hraw

theorem step_a (m : MapSize) (fm : FineGrid) (st : TopoState) (c : Coord) (py px : ℤ) :
    (processCell8 m fm st c).a py px = st.a py px +
      ∑ n ∈ Finset.univ.filter
        (fun n => isLower m fm c.x c.y n ∧ routeTarget c.x c.y n = (px, py)),
        deltaA m fm c.x c.y (st.a c.y c.x) n /
          (processCell8 m fm st c).tanbeta c.y c.x := by
  show st.a py px + _ = _
  have : (processCell8 m fm st c).tanbeta c.y c.x =
      (if lowerCount m fm c.x c.y = 8 then fallbackTanbeta m
       else st.tanbeta c.y c.x + tanbetaContrib m fm c.x c.y) := by
    show (if c.y = c.y ∧ c.x = c.x then _ else _) = _
    rw [if_pos ⟨rfl, rfl⟩]
  rw [this]

theorem step_tanbeta_self (m : MapSize) (fm : FineGrid) (st : TopoState) (c : Coord) :
    (processCell8 m fm st c).tanbeta c.y c.x =
      (if lowerCount m fm c.x c.y = 8 then fallbackTanbeta m
       else st.tanbeta c.y c.x + tanbetaContrib m fm c.x c.y) := by
  show (if c.y = c.y ∧ c.x = c.x then _ else _) = _
  rw [if_pos ⟨rfl, rfl⟩]

theorem step_tanbeta_ne (m : MapSize) (fm : FineGrid) (st : TopoState) (c : Coord)
    {py px : ℤ} (h : c.y ≠ py ∨ c.x ≠ px) :
    (processCell8 m fm st c).tanbeta py px = st.tanbeta py px := by
  show (if py = c.y ∧ px = c.x then _ else _) = _
  rw [if_neg]
  rintro ⟨h1, h2⟩
  rcases h with h | h
  · exact h h1.symm
  · exact h h2.symm

theorem step_a_const {m : MapSize} {fm : FineGrid} (st : TopoState) (c : Coord)
    {py px : ℤ}
    (h : ∀ n : Fin 8, ¬ (isLower m fm c.x c.y n ∧ routeTarget c.x c.y n = (px, py))) :
    (processCell8 m fm st c).a py px = st.a py px := by
  rw [step_a]
  rw [Finset.filter_eq_empty_iff.mpr (fun n _ => h n)]
  rw [Finset.sum_empty, add_zero]

theorem foldl_a_const {m : MapSize} {fm : FineGrid} {py px : ℤ} :
    ∀ (l : List Coord) (st : TopoState),
      (∀ d ∈ l, ∀ n : Fin 8,
        ¬ (isLower m fm d.x d.y n ∧ routeTarget d.x d.y n = (px, py))) →
      (l.foldl (processCell8 m fm) st).a py px = st.a py px := by
  intro l
  induction l with
  | nil => intro st _; rfl
  | cons d rest ih =>
      intro st h
      show ((rest.foldl (processCell8 m fm) (processCell8 m fm st d))).a py px = _
      rw [ih _ (fun e he n => h e (List.mem_cons_of_mem d he) n)]
      exact step_a_const st d (h d (List.mem_cons_self d rest))

theorem foldl_tanbeta_const {m : MapSize} {fm : FineGrid} {py px : ℤ} :
    ∀ (l : List Coord) (st : TopoState),
      (∀ d ∈ l, d.y ≠ py ∨ d.x ≠ px) →
      (l.foldl (processCell8 m fm) st).tanbeta py px = st.tanbeta py px := by
  intro l
  induction l with
  | nil => intro st _; rfl
  | cons d rest ih =>
      intro st h
      show ((rest.foldl (processCell8 m fm) (processCell8 m fm st d))).tanbeta py px = _
      rw [ih _ (fun e he => h e (List.mem_cons_of_mem d he))]
      exact step_tanbeta_ne m fm st d (h d (List.mem_cons_self d rest))

theorem lowerCount_eq_eight_iff {m : MapSize} {fm : FineGrid} {x y : ℤ} :
    lowerCount m fm x y = 8 ↔ ∀ n : Fin 8, ¬ isLower m fm x y n := by
  constructor
  · intro h n
    have huniv : Finset.univ.filter (fun n : Fin 8 => ¬ isLower m fm x y n) = Finset.univ :=
      Finset.eq_univ_of_card _ (by rw [Fintype.card_fin]; exact h)
    have : n ∈ Finset.univ.filter (fun n : Fin 8 => ¬ isLower m fm x y n) := by
      rw [huniv]; exact Finset.mem_univ n
    exact (Finset.mem_filter.mp this).2
  · intro h
    unfold lowerCount
    rw [Finset.filter_true_of_mem (fun n _ => h n)]
    simp [Fintype.card_fin]

theorem exists_isLower_of_count_ne {m : MapSize} {fm : FineGrid} {x y : ℤ}
    (h : lowerCount m fm x y ≠ 8) : ∃ n : Fin 8, isLower m fm x y n := by
  by_contra hc
  push_neg at hc
  exact h (lowerCount_eq_eight_iff.mpr hc)

/-!  Sign facts: with a positive cell size every slope term, contour weight
and tanbeta accumulation is nonnegative, and a processed cell's tanbeta is
strictly positive. -/

theorem lengthDiagonal_nonneg (m : MapSize) : 0 ≤ lengthDiagonal m := by
  rw [Q2.le_iff, Q2.toReal_zero]
  show (0 : ℝ) ≤ ((0 : ℚ) : ℝ) + ((|m.DMASS| : ℚ) : ℝ) * Real.sqrt 2
  push_cast
  positivity

theorem lengthDiagonal_pos {m : MapSize} (hD : 0 < m.DMASS) : 0 < lengthDiagonal m := by
  rw [Q2.lt_iff, Q2.toReal_zero]
  show (0 : ℝ) < ((0 : ℚ) : ℝ) + ((|m.DMASS| : ℚ) : ℝ) * Real.sqrt 2
  have h1 : (0 : ℝ) < ((|m.DMASS| : ℚ) : ℝ) := by
    exact_mod_cast abs_pos.mpr (ne_of_gt hD)
  have h2 : (0 : ℝ) < Real.sqrt 2 := Real.sqrt_pos.mpr (by norm_num)
  rw [Rat.cast_zero, zero_add]
  exact mul_pos h1 h2

theorem tempSlope_nonneg {m : MapSize} {fm : FineGrid} {x y : ℤ} {n : Fin 8}
    (hD : 0 ≤ m.DMASS) (h : isLower m fm x y n) : 0 ≤ tempSlope m fm x y n := by
  have hnum : (0 : Q2) ≤ (((fm y x).Dem - effElev m fm x y n : ℚ) : Q2) :=
    Q2.ratCast_nonneg (by have hlt : effElev m fm x y n < (fm y x).Dem := h; linarith)
  unfold tempSlope
  split
  · exact div_nonneg hnum (lengthDiagonal_nonneg m)
  · exact div_nonneg hnum (Q2.ratCast_nonneg hD)

theorem tempSlope_pos {m : MapSize} {fm : FineGrid} {x y : ℤ} {n : Fin 8}
    (hD : 0 < m.DMASS) (h : isLower m fm x y n) : 0 < tempSlope m fm x y n := by
  have hnum : (0 : Q2) < (((fm y x).Dem - effElev m fm x y n : ℚ) : Q2) :=
    Q2.ratCast_pos (by have hlt : effElev m fm x y n < (fm y x).Dem := h; linarith)
  unfold tempSlope
  split
  · exact div_pos hnum (lengthDiagonal_pos hD)
  · exact div_pos hnum (Q2.ratCast_pos hD)

theorem contourContrib_nonneg {m : MapSize} (hD : 0 ≤ m.DMASS) (n : Fin 8) :
    0 ≤ contourContrib m n := by
  unfold contourContrib
  split <;> nlinarith

theorem contourContrib_pos {m : MapSize} (hD : 0 < m.DMASS) (n : Fin 8) :
    0 < contourContrib m n := by
  unfold contourContrib
  split <;> nlinarith

theorem tanbetaContrib_nonneg {m : MapSize} {fm : FineGrid} {x y : ℤ}
    (hD : 0 ≤ m.DMASS) : 0 ≤ tanbetaContrib m fm x y := by
  apply Finset.sum_nonneg
  intro n hn
  have hl : isLower m fm x y n := (Finset.mem_filter.mp hn).2
  exact mul_nonneg (tempSlope_nonneg hD hl) (Q2.ratCast_nonneg (contourContrib_nonneg hD n))

theorem tanbetaContrib_pos {m : MapSize} {fm : FineGrid} {x y : ℤ}
    (hD : 0 < m.DMASS) (hn : ∃ n, isLower m fm x y n) : 0 < tanbetaContrib m fm x y := by
  obtain ⟨n0, hn0⟩ := hn
  apply Finset.sum_pos'
  · intro n hn
    have hl : isLower m fm x y n := (Finset.mem_filter.mp hn).2
    exact mul_nonneg (tempSlope_nonneg hD.le hl)
      (Q2.ratCast_nonneg (contourContrib_nonneg hD.le n))
  · exact ⟨n0, Finset.mem_filter.mpr ⟨Finset.mem_univ n0, hn0⟩,
      mul_pos (tempSlope_pos hD hn0) (Q2.ratCast_pos (contourContrib_pos hD n0))⟩

theorem fallback_nonneg {m : MapSize} (hD : 0 ≤ m.DMASS) : 0 ≤ fallbackTanbeta m := by
  unfold fallbackTanbeta
  apply add_nonneg
  · apply mul_nonneg (Q2.ratCast_nonneg (by norm_num))
    exact div_nonneg (Q2.ratCast_nonneg (by norm_num [VERTRES])) (lengthDiagonal_nonneg m)
  · apply Q2.ratCast_nonneg
    have : (0 : ℚ) ≤ 0.5 * VERTRES / m.DMASS := div_nonneg (by norm_num [VERTRES]) hD
    nlinarith

theorem fallback_pos {m : MapSize} (hD : 0 < m.DMASS) : 0 < fallbackTanbeta m := by
  unfold fallbackTanbeta
  apply add_pos
  · apply mul_pos (Q2.ratCast_pos (by norm_num))
    exact div_pos (Q2.ratCast_pos (by norm_num [VERTRES])) (lengthDiagonal_pos hD)
  · apply Q2.ratCast_pos
    have : (0 : ℚ) < 0.5 * VERTRES / m.DMASS := div_pos (by norm_num [VERTRES]) hD
    nlinarith

theorem step_tb_nonneg {m : MapSize} {fm : FineGrid} {st : TopoState} {c : Coord}
    (hD : 0 ≤ m.DMASS) (h : 0 ≤ st.tanbeta c.y c.x) :
    0 ≤ (processCell8 m fm st c).tanbeta c.y c.x := by
  rw [step_tanbeta_self]
  split
  · exact fallback_nonneg hD
  · exact add_nonneg h (tanbetaContrib_nonneg hD)

theorem step_tb_pos {m : MapSize} {fm : FineGrid} {st : TopoState} {c : Coord}
    (hD : 0 < m.DMASS) (h : 0 ≤ st.tanbeta c.y c.x) :
    0 < (processCell8 m fm st c).tanbeta c.y c.x := by
  rw [step_tanbeta_self]
  split
  · exact fallback_pos hD
  · rename_i hcnt
    exact add_pos_of_nonneg_of_pos h
      (tanbetaContrib_pos hD (exists_isLower_of_count_ne hcnt))

/-- The two accumulator-sign invariants the sweep maintains with a
nonnegative cell size. -/
def NonnegState (st : TopoState) : Prop :=
  (∀ py px, 0 ≤ st.a py px) ∧ (∀ py px, 0 ≤ st.tanbeta py px)

theorem step_nonneg {m : MapSize} {fm : FineGrid} {st : TopoState} {c : Coord}
    (hD : 0 ≤ m.DMASS) (h : NonnegState st) : NonnegState (processCell8 m fm st c) := by
  have htb : 0 ≤ (processCell8 m fm st c).tanbeta c.y c.x := step_tb_nonneg hD (h.2 c.y c.x)
  constructor
  · intro py px
    rw [step_a]
    apply add_nonneg (h.1 py px)
    apply Finset.sum_nonneg
    intro n hn
    have hl : isLower m fm c.x c.y n := (Finset.mem_filter.mp hn).2.1
    apply div_nonneg _ htb
    exact mul_nonneg (mul_nonneg (h.1 c.y c.x) (tempSlope_nonneg hD hl))
      (Q2.ratCast_nonneg (contourContrib_nonneg hD n))
  · intro py px
    by_cases hc : c.y = py ∧ c.x = px
    · obtain ⟨h1, h2⟩ := hc
      subst h1
      subst h2
      exact htb
    · rw [step_tanbeta_ne m fm st c (by tauto)]
      exact h.2 py px

theorem step_a_mono {m : MapSize} {fm : FineGrid} {st : TopoState} {c : Coord}
    (hD : 0 ≤ m.DMASS) (h : NonnegState st) (py px : ℤ) :
    st.a py px ≤ (processCell8 m fm st c).a py px := by
  have htb : 0 ≤ (processCell8 m fm st c).tanbeta c.y c.x := step_tb_nonneg hD (h.2 c.y c.x)
  rw [step_a]
  apply le_add_of_nonneg_right
  apply Finset.sum_nonneg
  intro n hn
  have hl : isLower m fm c.x c.y n := (Finset.mem_filter.mp hn).2.1
  apply div_nonneg _ htb
  exact mul_nonneg (mul_nonneg (h.1 c.y c.x) (tempSlope_nonneg hD hl))
    (Q2.ratCast_nonneg (contourContrib_nonneg hD n))

theorem foldl_nonneg {m : MapSize} {fm : FineGrid} (hD : 0 ≤ m.DMASS) :
    ∀ (l : List Coord) (st : TopoState), NonnegState st →
      NonnegState (l.foldl (processCell8 m fm) st) := by
  intro l
  induction l with
  | nil => intro st h; exact h
  | cons d rest ih => intro st h; exact ih _ (step_nonneg hD h)

theorem foldl_a_mono {m : MapSize} {fm : FineGrid} (hD : 0 ≤ m.DMASS) (py px : ℤ) :
    ∀ (l : List Coord) (st : TopoState), NonnegState st →
      st.a py px ≤ (l.foldl (processCell8 m fm) st).a py px := by
  intro l
  induction l with
  | nil => intro st _; exact le_rfl
  | cons d rest ih =>
      intro st h
      exact (step_a_mono hD h py px).trans (ih _ (step_nonneg hD h))

/-- Pointwise description of the initialization fold: a point holds the
cell area exactly when some listed cell has its coordinates, and is
otherwise left at its previous value. -/
theorem foldl_init_spec (m : MapSize) (py px : ℤ) :
    ∀ (l : List Coord) (g : ℤ → ℤ → Q2),
      (l.foldl
        (fun g c => fun yy xx => if yy = c.y ∧ xx = c.x then cellArea m else g yy xx)
        g) py px =
      if ∃ c ∈ l, c.y = py ∧ c.x = px then cellArea m else g py px := by
  intro l
  induction l with
  | nil => intro g; simp
  | cons d rest ih =>
      intro g
      rw [List.foldl_cons, ih]
      by_cases h1 : ∃ c ∈ rest, c.y = py ∧ c.x = px
      · rw [if_pos h1, if_pos ⟨h1.choose, List.mem_cons_of_mem d h1.choose_spec.1,
          h1.choose_spec.2⟩]
      · rw [if_neg h1]
        by_cases h2 : py = d.y ∧ px = d.x
        · rw [if_pos h2, if_pos ⟨d, List.mem_cons_self d rest, h2.1.symm, h2.2.symm⟩]
        · rw [if_neg h2, if_neg]
          rintro ⟨c, hc, hcy, hcx⟩
          rcases List.mem_cons.mp hc with rfl | hc'
          · exact h2 ⟨hcy.symm, hcx.symm⟩
          · exact h1 ⟨c, hc', hcy, hcx⟩

theorem initState_a (m : MapSize) :
    (initState m).a = m.orderedCellsFine.reverse.foldl
      (fun g c => fun yy xx => if yy = c.y ∧ xx = c.x then cellArea m else g yy xx)
      (fun _ _ => 0) := rfl

theorem initA_mem {m : MapSize} {c : Coord} (hc : c ∈ m.orderedCellsFine) :
    (initState m).a c.y c.x = cellArea m := by
  rw [initState_a, foldl_init_spec]
  exact if_pos ⟨c, List.mem_reverse.mpr hc, rfl, rfl⟩

theorem initA_not_mem {m : MapSize} {py px : ℤ}
    (h : ∀ c ∈ m.orderedCellsFine, ¬ (c.y = py ∧ c.x = px)) :
    (initState m).a py px = 0 := by
  rw [initState_a, foldl_init_spec]
  rw [if_neg]
  rintro ⟨c, hc, hcoord⟩
  exact h c (List.mem_reverse.mp hc) hcoord

theorem cellArea_nonneg (m : MapSize) : 0 ≤ cellArea m :=
  Q2.ratCast_nonneg (mul_self_nonneg m.DMASS)

theorem initState_nonneg (m : MapSize) : NonnegState (initState m) := by
  constructor
  · intro py px
    rw [initState_a, foldl_init_spec]
    split
    · exact cellArea_nonneg m
    · exact le_rfl
  · intro py px
    exact le_rfl

/-- A cell that appears in the remaining sweep list ends with a strictly
positive tanbeta: its last processing either assigned the (positive)
flat-area fallback or added a positive slope total, and later iterations
never write another cell's tanbeta. -/
theorem foldl_tanbeta_pos_of_mem {m : MapSize} {fm : FineGrid} (hD : 0 < m.DMASS) :
    ∀ (l : List Coord) (st : TopoState) (c : Coord), NonnegState st → c ∈ l →
      0 < (l.foldl (processCell8 m fm) st).tanbeta c.y c.x := by
  intro l
  induction l with
  | nil => intro st c _ hc; exact absurd hc (List.not_mem_nil c)
  | cons d rest ih =>
      intro st c hst hc
      by_cases hcr : c ∈ rest
      · exact ih _ c (step_nonneg hD.le hst) hcr
      · have hcd : c = d := by
          rcases List.mem_cons.mp hc with h | h
          · exact h
          · exact absurd h hcr
        subst hcd
        rw [List.foldl_cons]
        rw [foldl_tanbeta_const rest _ ?_]
        · exact step_tb_pos hD (hst.2 c.y c.x)
        · intro e he
          by_contra hcoord
          push_neg at hcoord
          have hec : e = c := by
            ext
            · exact hcoord.2
            · exact hcoord.1
          exact hcr (hec ▸ he)

/-!  Per-slot routing, exact distribution, and frame lemmas. -/

theorem step_a_at_target {m : MapSize} {fm : FineGrid} (st : TopoState) (c : Coord)
    {n : Fin 8} (hl : isLower m fm c.x c.y n) :
    (processCell8 m fm st c).a (routeTarget c.x c.y n).2 (routeTarget c.x c.y n).1 =
      st.a (routeTarget c.x c.y n).2 (routeTarget c.x c.y n).1 +
        deltaA m fm c.x c.y (st.a c.y c.x) n /
          (processCell8 m fm st c).tanbeta c.y c.x := by
  rw [step_a]
  congr 1
  have hfilter : Finset.univ.filter
      (fun n' => isLower m fm c.x c.y n' ∧
        routeTarget c.x c.y n' = ((routeTarget c.x c.y n).1, (routeTarget c.x c.y n).2)) =
      {n} := by
    ext n'
    simp only [Finset.mem_filter, Finset.mem_univ, true_and, Finset.mem_singleton]
    constructor
    · rintro ⟨_, htgt⟩
      exact routeTarget_injective c.x c.y (htgt.trans (Prod.mk.eta))
    · rintro rfl
      exact ⟨hl, (Prod.mk.eta).symm⟩
  rw [hfilter, Finset.sum_singleton]

/-- The exact-distribution identity: when a cell is processed for the first
time (its tanbeta still 0) and has at least one strictly lower slot, the
routed amounts `delta_a[n]/tanbeta` summed over the lower slots equal the
cell's area at the start of the step, because that tanbeta is exactly the
sum of the per-slot `slope × contour` terms. -/
theorem step_distributes {m : MapSize} {fm : FineGrid} (st : TopoState) (c : Coord)
    (hD : 0 < m.DMASS) (h0 : st.tanbeta c.y c.x = 0)
    (hex : ∃ n, isLower m fm c.x c.y n) :
    ∑ n ∈ Finset.univ.filter (fun n => isLower m fm c.x c.y n),
      deltaA m fm c.x c.y (st.a c.y c.x) n /
        (processCell8 m fm st c).tanbeta c.y c.x = st.a c.y c.x := by
  have hcnt : lowerCount m fm c.x c.y ≠ 8 := by
    intro h8
    obtain ⟨n, hn⟩ := hex
    exact (lowerCount_eq_eight_iff.mp h8 n) hn
  have htb : (processCell8 m fm st c).tanbeta c.y c.x = tanbetaContrib m fm c.x c.y := by
    rw [step_tanbeta_self, if_neg hcnt, h0, zero_add]
  have hpos : 0 < tanbetaContrib m fm c.x c.y := tanbetaContrib_pos hD hex
  rw [htb, ← Finset.sum_div]
  have hsum : ∑ n ∈ Finset.univ.filter (fun n => isLower m fm c.x c.y n),
      deltaA m fm c.x c.y (st.a c.y c.x) n =
      st.a c.y c.x * tanbetaContrib m fm c.x c.y := by
    unfold deltaA tanbetaContrib
    rw [Finset.mul_sum]
    exact Finset.sum_congr rfl (fun n _ => mul_assoc _ _ _)
  rw [hsum, mul_div_assoc, div_self (ne_of_gt hpos), mul_one]

/-- Descending-order stability: once the remaining cells are all at or
below a given cell's elevation, no later step changes that cell's area,
because a step only routes into slots strictly below the processed cell. -/
theorem foldl_a_const_of_le {m : MapSize} {fm : FineGrid} {c : Coord}
    (l : List Coord) (st : TopoState)
    (h : ∀ d ∈ l, (fm d.y d.x).Dem ≤ (fm c.y c.x).Dem) :
    (l.foldl (processCell8 m fm) st).a c.y c.x = st.a c.y c.x := by
  apply foldl_a_const
  intro d hd n
  rintro ⟨hl, htgt⟩
  obtain ⟨_, _, _, _, hlt⟩ := isLower_target hl
  rw [routeTarget_eq] at htgt
  have hx : d.x + xneighbor n = c.x := ((Prod.mk.injEq _ _ _ _).mp htgt).1
  have hy : d.y + yneighbor n = c.y := ((Prod.mk.injEq _ _ _ _).mp htgt).2
  rw [hx, hy] at hlt
  exact absurd (hlt.trans_le (h d hd)) (lt_irrefl _)

/-- Cells off the grid or outside the basin mask never receive routed
area: a strictly lower slot is always in-grid and in-basin. -/
theorem foldl_a_const_of_invalid {m : MapSize} {fm : FineGrid} {py px : ℤ}
    (hp : ¬ valid_cell_fine m px py ∨ (fm py px).Mask = false)
    (l : List Coord) (st : TopoState) :
    (l.foldl (processCell8 m fm) st).a py px = st.a py px := by
  apply foldl_a_const
  intro d _ n
  rintro ⟨hl, htgt⟩
  obtain ⟨hv, hM, _, _, _⟩ := isLower_target hl
  rw [routeTarget_eq] at htgt
  have hx : d.x + xneighbor n = px := ((Prod.mk.injEq _ _ _ _).mp htgt).1
  have hy : d.y + yneighbor n = py := ((Prod.mk.injEq _ _ _ _).mp htgt).2
  rw [hx, hy] at hv hM
  rcases hp with hp | hp
  · exact hp hv
  · rw [hp] at hM
    exact Bool.false_ne_true hM

/-- Cells whose recorded elevation is the sentinel never receive routed
area: a strictly lower slot's recorded elevation is never the sentinel. -/
theorem foldl_a_const_of_sentinel {m : MapSize} {fm : FineGrid} {py px : ℤ}
    (hdem : (fm py px).Dem = OUTSIDEBASIN)
    (l : List Coord) (st : TopoState) :
    (l.foldl (processCell8 m fm) st).a py px = st.a py px := by
  apply foldl_a_const
  intro d _ n
  rintro ⟨hl, htgt⟩
  obtain ⟨_, _, hOB, _, _⟩ := isLower_target hl
  rw [routeTarget_eq] at htgt
  have hx : d.x + xneighbor n = px := ((Prod.mk.injEq _ _ _ _).mp htgt).1
  have hy : d.y + yneighbor n = py := ((Prod.mk.injEq _ _ _ _).mp htgt).2
  rw [hx, hy] at hOB
  exact hOB hdem

/-- A neighbor slot pointing at a cell whose recorded elevation equals the
sentinel reads the sentinel, is therefore replaced by the center elevation,
and is never strictly lower. -/
theorem sentinel_neighbor_flat {m : MapSize} {fm : FineGrid} {py px : ℤ}
    (hdem : (fm py px).Dem = OUTSIDEBASIN) (x y : ℤ) (n : Fin 8)
    (hx : x + xneighbor n = px) (hy : y + yneighbor n = py) :
    effElev m fm x y n = (fm y x).Dem ∧ ¬ isLower m fm x y n := by
  have hne : neighborElev m fm x y n = OUTSIDEBASIN := by
    unfold neighborElev
    simp only [hx, hy]
    by_cases hv : valid_cell_fine m px py
    · rw [if_pos hv]
      by_cases hM : (fm py px).Mask
      · rw [if_pos hM, hdem]
      · rw [if_neg hM]
    · rw [if_neg hv]
  have heff : effElev m fm x y n = (fm y x).Dem := by
    unfold effElev
    rw [if_pos hne]
  refine ⟨heff, ?_⟩
  intro hlow
  have hlt : effElev m fm x y n < (fm y x).Dem := hlow
  rw [heff] at hlt
  exact lt_irrefl _ hlt

/-- A processed cell's final tanbeta is strictly positive (positive cell
size). -/
theorem sweep_tanbeta_pos {m : MapSize} {fm : FineGrid} {c : Coord}
    (hD : 0 < m.DMASS) (hc : c ∈ m.orderedCellsFine) :
    0 < (sweep m fm).tanbeta c.y c.x :=
  foldl_tanbeta_pos_of_mem hD (visitOrder m) (initState m) c (initState_nonneg m)
    (List.mem_reverse.mpr hc)

/-- A cell with no strictly lower slot that appears in the remaining sweep
list ends with the flat-area fallback tanbeta. -/
theorem foldl_tanbeta_flat {m : MapSize} {fm : FineGrid} {c : Coord}
    (hflat : ∀ n : Fin 8, ¬ isLower m fm c.x c.y n) :
    ∀ (l : List Coord) (st : TopoState), c ∈ l →
      (l.foldl (processCell8 m fm) st).tanbeta c.y c.x = fallbackTanbeta m := by
  intro l
  induction l with
  | nil => intro st hc; exact absurd hc (List.not_mem_nil c)
  | cons d rest ih =>
      intro st hc
      by_cases hcr : c ∈ rest
      · rw [List.foldl_cons]
        exact ih _ hcr
      · have hcd : c = d := by
          rcases List.mem_cons.mp hc with h | h
          · exact h
          · exact absurd h hcr
        subst hcd
        rw [List.foldl_cons]
        rw [foldl_tanbeta_const rest _ ?_]
        · rw [step_tanbeta_self, if_pos (lowerCount_eq_eight_iff.mpr hflat)]
        · intro e he
          by_contra hcoord
          push_neg at hcoord
          have hec : e = c := by
            ext
            · exact hcoord.2
            · exact hcoord.1
          exact hcr (hec ▸ he)

/-- The finalization fold leaves every point that no listed cell addresses
untouched. -/
theorem finalize_write_not_mem {m : MapSize} {fm : FineGrid} {st : TopoState}
    {py px : ℤ} (h : ∀ c ∈ m.orderedCellsFine, ¬ (c.y = py ∧ c.x = px)) :
    finalize m fm st py px = fm py px := by
  have hgen : ∀ (l : List Coord) (g : FineGrid), (∀ c ∈ l, ¬ (c.y = py ∧ c.x = px)) →
      (l.foldl
        (fun g c => fun yy xx =>
          if yy = c.y ∧ xx = c.x then
            { g yy xx with TopoIndex := st.a c.y c.x / st.tanbeta c.y c.x }
          else g yy xx)
        g) py px = g py px := by
    intro l
    induction l with
    | nil => intro g _; rfl
    | cons d rest ih =>
        intro g hl
        rw [List.foldl_cons, ih _ (fun e he => hl e (List.mem_cons_of_mem d he))]
        show (if py = d.y ∧ px = d.x then _ else g py px) = g py px
        rw [if_neg]
        intro hcoord
        exact hl d (List.mem_cons_self d rest) ⟨hcoord.1.symm, hcoord.2.symm⟩
  apply hgen
  intro c hc
  exact h c (List.mem_reverse.mp hc)

/-!  Concrete grids used by the scenario claims, the counterexamples and the
witnesses. -/

/-- The spec's 1×2 scenario grid: left cell `(x=0,y=0)` at elevation 20,
right cell `(x=1,y=0)` at elevation 10, both in the basin. -/
def fm12 : FineGrid := fun y x =>
  if y = 0 ∧ x = 0 then ⟨true, 20, 0⟩
  else if y = 0 ∧ x = 1 then ⟨true, 10, 0⟩
  else ⟨false, 0, 0⟩

/-- The 1×2 scenario map: `DMASS = 10`, `OrderedCellsfine` listed in
ascending elevation (right, then left), so the reversed sweep visits the
left cell first — "processing order = [left, right]" in the spec's sense. -/
def map12 : MapSize := ⟨2, 1, 10, [⟨1, 0⟩, ⟨0, 0⟩]⟩

/-- A 1×3 strictly monotone row: elevations 30, 20, 10 at `x = 0, 1, 2`. -/
def fm13 : FineGrid := fun y x =>
  if y = 0 ∧ x = 0 then ⟨true, 30, 0⟩
  else if y = 0 ∧ x = 1 then ⟨true, 20, 0⟩
  else if y = 0 ∧ x = 2 then ⟨true, 10, 0⟩
  else ⟨false, 0, 0⟩

/-- The 1×3 row with `OrderedCellsfine` sorted by DESCENDING elevation —
the order the claim says the externally supplied sequence has. -/
def map13 : MapSize := ⟨3, 1, 10, [⟨0, 0⟩, ⟨1, 0⟩, ⟨2, 0⟩]⟩

/-- The 1×3 row with `OrderedCellsfine` sorted by ascending elevation (the
layout the reversed loop turns into a descending visit order). -/
def map13asc : MapSize := ⟨3, 1, 10, [⟨2, 0⟩, ⟨1, 0⟩, ⟨0, 0⟩]⟩

/-- The spec's 3×3 flat scenario grid: every cell at elevation 10. -/
def fm33 : FineGrid := fun y x =>
  if 0 ≤ y ∧ y < 3 ∧ 0 ≤ x ∧ x < 3 then ⟨true, 10, 0⟩ else ⟨false, 0, 0⟩

/-- The 3×3 flat scenario map: `DMASS = 10`, all nine cells listed. -/
def map33 : MapSize := ⟨3, 3, 10,
  [⟨0, 0⟩, ⟨1, 0⟩, ⟨2, 0⟩, ⟨0, 1⟩, ⟨1, 1⟩, ⟨2, 1⟩, ⟨0, 2⟩, ⟨1, 2⟩, ⟨2, 2⟩]⟩

/-- A single-cell basin whose `TopoIndex` slot starts at a recognizable
nonzero value. -/
def fm11 : FineGrid := fun y x =>
  if y = 0 ∧ x = 0 then ⟨true, 10, 7⟩ else ⟨false, 0, 0⟩

def map11 : MapSize := ⟨1, 1, 10, [⟨0, 0⟩]⟩

/-- A handcrafted accumulator state with `tanbeta = 0` everywhere, fed to
the finalization pass to probe its (absent) degeneracy guard. -/
def stZero : TopoState := ⟨fun _ _ => 100, fun _ _ => 0, fun _ _ => 0⟩

/-- A map whose `OrderedCellsfine` is empty (zero basin cells). -/
def mapNil : MapSize := ⟨2, 1, 10, []⟩

/-- A 1×2 grid whose right cell is inside the basin but has recorded
elevation exactly `OUTSIDEBASIN` (= 0), strictly below the left cell's 5. -/
def fmSen : FineGrid := fun y x =>
  if y = 0 ∧ x = 0 then ⟨true, 5, 0⟩
  else if y = 0 ∧ x = 1 then ⟨true, 0, 0⟩
  else ⟨false, 0, 0⟩

def mapSen : MapSize := ⟨2, 1, 10, [⟨1, 0⟩, ⟨0, 0⟩]⟩

/-!  The claims. -/

/-- Claim C1, counterexample.  The claim says the distribution sweep visits
cells in exactly the order of the externally supplied `OrderedCellsfine`
sequence (first element first), that sequence being sorted by strictly
descending elevation.  On the 1×3 row with elevations 30, 20, 10 and
`OrderedCellsfine` sorted exactly as the claim premises (strictly
descending), the code's sweep (`for (k = NumCellsfine-1; k > -1; k--)`,
line 141) visits the LAST element first: the visit order is the reverse of
the supplied sequence, and the resulting accumulated area of the bottom
cell is 200, not the 300 that first-element-first processing would
produce. -/
theorem claim_C1_counterexample :
    visitOrder map13 ≠ map13.orderedCellsFine ∧
    List.Pairwise (fun d e => (fm13 e.y e.x).Dem < (fm13 d.y d.x).Dem)
      map13.orderedCellsFine ∧
    (sweep map13 fm13).a 0 2 = 200 ∧
    (sweepSpecOrder map13 fm13).a 0 2 = 300 ∧
    (sweep map13 fm13).a 0 2 ≠ (sweepSpecOrder map13 fm13).a 0 2 := by
  with_unfolding_all decide

/-- Claim C1, amended.  The distribution sweep visits cells in exactly the
REVERSE of the externally supplied `OrderedCellsfine` sequence (its last
element is processed first).  When that reversed visit order is sorted by
descending elevation (ties allowed) — i.e. the supplied array is sorted
ascending — every upslope contribution has arrived in a cell's area
accumulator before that cell distributes: from the moment a cell is
processed, its accumulated area never changes for the rest of the sweep. -/
theorem claim_C1_amended (m : MapSize) (fm : FineGrid) (pre suf : List Coord) (c : Coord)
    (hsort : List.Pairwise (fun d e => (fm e.y e.x).Dem ≤ (fm d.y d.x).Dem) (visitOrder m))
    (hsplit : visitOrder m = pre ++ c :: suf) :
    visitOrder m = m.orderedCellsFine.reverse ∧
    (sweep m fm).a c.y c.x = (sweepPrefix m fm (pre ++ [c])).a c.y c.x := by
  refine ⟨rfl, ?_⟩
  have hassoc : pre ++ c :: suf = (pre ++ [c]) ++ suf := by simp
  have hsweep : sweep m fm =
      suf.foldl (processCell8 m fm) (sweepPrefix m fm (pre ++ [c])) := by
    show (visitOrder m).foldl (processCell8 m fm) (initState m) = _
    rw [hsplit, hassoc, List.foldl_append]
    rfl
  rw [hsweep]
  apply foldl_a_const_of_le
  intro d hd
  rw [hsplit] at hsort
  have h2 := (List.pairwise_append.mp hsort).2.1
  exact (List.pairwise_cons.mp h2).1 d hd

/-- Claim C1, witness for the amended theorem: on the 1×3 row supplied in
ascending order, the top cell's area after the whole sweep equals its area
right after its own (first) processing step. -/
theorem claim_C1_witness :
    visitOrder map13asc = map13asc.orderedCellsFine.reverse ∧
    (sweep map13asc fm13).a 0 0 =
      (sweepPrefix map13asc fm13 ([] ++ [⟨0, 0⟩])).a 0 0 :=
  claim_C1_amended map13asc fm13 [] [⟨1, 0⟩, ⟨2, 0⟩] ⟨0, 0⟩
    (by with_unfolding_all decide) rfl

/-- Claim C2: the spec's single-downslope-step scenario.  On the 1×2 row
(left elevation 20, right elevation 10, `DMASS = 10`, left processed
first): the left cell has exactly one strictly lower slot, the orthogonal
slot 3 pointing at the right cell; the sweep computes slope 1 and contour
contribution 6 for it, accumulates `tanbeta[left] = 6`, records
`delta_a = 100·1·6 = 600`, routes `600/6 = 100` into the right cell, and
the right cell's final accumulated area is its own 100 plus the received
100, i.e. 200. -/
theorem claim_C2 :
    (∀ n : Fin 8, isLower map12 fm12 0 0 n ↔ n = 3) ∧
    ¬ isDiagonal 3 ∧
    tempSlope map12 fm12 0 0 3 = 1 ∧
    contourContrib map12 3 = 6 ∧
    (sweep map12 fm12).tanbeta 0 0 = 6 ∧
    (initState map12).a 0 0 = 100 ∧
    deltaA map12 fm12 0 0 ((initState map12).a 0 0) 3 = 600 ∧
    deltaA map12 fm12 0 0 ((initState map12).a 0 0) 3 / (sweep map12 fm12).tanbeta 0 0
      = 100 ∧
    (initState map12).a 0 1 = 100 ∧
    (sweep map12 fm12).a 0 1 = 200 := by
  with_unfolding_all decide

/-- Claim C3: flat-area fallback.  For every processed cell none of whose
eight (sentinel-flattened) neighbor slots is strictly lower, the sweep sets
`tanbeta` to exactly
`4·(0.5·VERTRES/length_diagonal) + 4·(0.5·VERTRES/DMASS)`; and on the 3×3
all-flat basin at elevation 10 with `DMASS = 10` and `VERTRES = 1`, every
cell ends with `tanbeta = 1/5 + (1/10)·√2` (the exact value of
`4·(0.5/√200) + 4·(0.5/10) ≈ 0.3414`) and accumulated area 100. -/
theorem claim_C3 :
    (∀ (m : MapSize) (fm : FineGrid) (c : Coord),
      c ∈ m.orderedCellsFine →
      (∀ n : Fin 8, ¬ isLower m fm c.x c.y n) →
      (sweep m fm).tanbeta c.y c.x = fallbackTanbeta m ∧
      fallbackTanbeta m =
        ((4 : ℚ) : Q2) * (((0.5 * VERTRES : ℚ) : Q2) / lengthDiagonal m) +
          ((4 : ℚ) : Q2) * (((0.5 * VERTRES : ℚ) : Q2) / ((m.DMASS : ℚ) : Q2))) ∧
    (∀ c ∈ map33.orderedCellsFine,
      (sweep map33 fm33).tanbeta c.y c.x = ⟨1/5, 1/10⟩ ∧
      (sweep map33 fm33).a c.y c.x = 100) ∧
    fallbackTanbeta map33 = ⟨1/5, 1/10⟩ := by
  refine ⟨?_, ?_, ?_⟩
  · intro m fm c hc hflat
    constructor
    · exact foldl_tanbeta_flat hflat (visitOrder m) (initState m) (List.mem_reverse.mpr hc)
    · unfold fallbackTanbeta
      push_cast
      ring
  · with_unfolding_all decide
  · with_unfolding_all decide

/-- Claim C3, witness for the universally quantified part: the right cell
of the 1×2 scenario has no strictly lower slot (its only in-grid neighbor
is higher), so its final tanbeta is the fallback constant. -/
theorem claim_C3_witness :
    (sweep map12 fm12).tanbeta 0 1 = fallbackTanbeta map12 :=
  (claim_C3.1 map12 fm12 ⟨1, 0⟩ (by with_unfolding_all decide)
    (by with_unfolding_all decide)).1

/-- Claim C4: exact distribution / conservation.  When a cell with at least
one strictly lower slot is processed (first and only processing, positive
cell size), the routed amounts `delta_a[n]/tanbeta` summed over its
strictly lower slots equal exactly the cell's accumulated area at that
moment — because its tanbeta is then exactly the sum of the per-slot
`slope × contour` terms.  The step changes no other area entry: the cell
keeps its own accumulator and points not targeted by a lower slot are
untouched, so the sweep only moves area downslope, never creating or
destroying it beyond the forwarded total. -/
theorem claim_C4 (m : MapSize) (fm : FineGrid) (pre suf : List Coord) (c : Coord)
    (hD : 0 < m.DMASS)
    (_hsplit : visitOrder m = pre ++ c :: suf)
    (hpre : c ∉ pre)
    (hex : ∃ n : Fin 8, isLower m fm c.x c.y n) :
    (∑ n ∈ Finset.univ.filter (fun n => isLower m fm c.x c.y n),
       ((processCell8 m fm (sweepPrefix m fm pre) c).a
          (routeTarget c.x c.y n).2 (routeTarget c.x c.y n).1 -
        (sweepPrefix m fm pre).a (routeTarget c.x c.y n).2 (routeTarget c.x c.y n).1))
      = (sweepPrefix m fm pre).a c.y c.x ∧
    (processCell8 m fm (sweepPrefix m fm pre) c).a c.y c.x =
      (sweepPrefix m fm pre).a c.y c.x ∧
    (∀ py px, (∀ n : Fin 8, ¬ (isLower m fm c.x c.y n ∧ routeTarget c.x c.y n = (px, py))) →
      (processCell8 m fm (sweepPrefix m fm pre) c).a py px =
        (sweepPrefix m fm pre).a py px) := by
  have h0 : (sweepPrefix m fm pre).tanbeta c.y c.x = 0 := by
    show (pre.foldl (processCell8 m fm) (initState m)).tanbeta c.y c.x = 0
    rw [foldl_tanbeta_const pre _ ?_]
    · rfl
    · intro d hd
      by_contra hcoord
      push_neg at hcoord
      have hdc : d = c := by
        ext
        · exact hcoord.2
        · exact hcoord.1
      exact hpre (hdc ▸ hd)
  refine ⟨?_, ?_, ?_⟩
  · calc
      ∑ n ∈ Finset.univ.filter (fun n => isLower m fm c.x c.y n),
        ((processCell8 m fm (sweepPrefix m fm pre) c).a
            (routeTarget c.x c.y n).2 (routeTarget c.x c.y n).1 -
          (sweepPrefix m fm pre).a (routeTarget c.x c.y n).2 (routeTarget c.x c.y n).1)
        = ∑ n ∈ Finset.univ.filter (fun n => isLower m fm c.x c.y n),
            deltaA m fm c.x c.y ((sweepPrefix m fm pre).a c.y c.x) n /
              (processCell8 m fm (sweepPrefix m fm pre) c).tanbeta c.y c.x := by
          apply Finset.sum_congr rfl
          intro n hn
          rw [step_a_at_target _ c (Finset.mem_filter.mp hn).2]
          ring
      _ = (sweepPrefix m fm pre).a c.y c.x :=
          step_distributes _ c hD h0 hex
  · exact step_a_const _ c (fun n => by
      rintro ⟨_, htgt⟩
      exact routeTarget_ne_self c.x c.y n htgt)
  · intro py px h
    exact step_a_const _ c h

/-- Claim C4, witness: the left cell of the 1×2 scenario forwards exactly
its accumulated 100 to its lower slots. -/
theorem claim_C4_witness :
    (∑ n ∈ Finset.univ.filter (fun n => isLower map12 fm12 0 0 n),
       ((processCell8 map12 fm12 (sweepPrefix map12 fm12 []) ⟨0, 0⟩).a
          (routeTarget 0 0 n).2 (routeTarget 0 0 n).1 -
        (sweepPrefix map12 fm12 []).a (routeTarget 0 0 n).2 (routeTarget 0 0 n).1))
      = (sweepPrefix map12 fm12 []).a 0 0 ∧
    (processCell8 map12 fm12 (sweepPrefix map12 fm12 []) ⟨0, 0⟩).a 0 0 =
      (sweepPrefix map12 fm12 []).a 0 0 ∧
    (∀ py px,
      (∀ n : Fin 8, ¬ (isLower map12 fm12 0 0 n ∧ routeTarget 0 0 n = (px, py))) →
      (processCell8 map12 fm12 (sweepPrefix map12 fm12 []) ⟨0, 0⟩).a py px =
        (sweepPrefix map12 fm12 []).a py px) :=
  claim_C4 map12 fm12 [] [⟨1, 0⟩] ⟨0, 0⟩ (by norm_num [map12])
    rfl (by with_unfolding_all decide) ⟨3, by with_unfolding_all decide⟩

/-- Claim C5: initialization and monotone growth.  Every cell listed in
`OrderedCellsfine` has its accumulated area initialized to `dx·dy`
(`= DMASS²`), and with a positive cell size every routed increment is
nonnegative, so the cell's final accumulated area is at least `dx·dy`. -/
theorem claim_C5 (m : MapSize) (fm : FineGrid) (c : Coord)
    (hD : 0 < m.DMASS) (hc : c ∈ m.orderedCellsFine) :
    (initState m).a c.y c.x = cellArea m ∧
    cellArea m = ((m.DMASS * m.DMASS : ℚ) : Q2) ∧
    cellArea m ≤ (sweep m fm).a c.y c.x := by
  refine ⟨initA_mem hc, rfl, ?_⟩
  have hmono := @foldl_a_mono m fm (le_of_lt hD) c.y c.x (visitOrder m) (initState m)
    (initState_nonneg m)
  rw [initA_mem hc] at hmono
  exact hmono

/-- Claim C5, witness: on the 1×2 scenario the right cell starts at 100 and
ends at 200 ≥ 100. -/
theorem claim_C5_witness :
    (initState map12).a 0 1 = cellArea map12 ∧
    cellArea map12 = ((map12.DMASS * map12.DMASS : ℚ) : Q2) ∧
    cellArea map12 ≤ (sweep map12 fm12).a 0 1 :=
  claim_C5 map12 fm12 ⟨1, 0⟩ (by norm_num [map12]) (by with_unfolding_all decide)

/-- Claim C6: tanbeta positivity.  With a positive cell size and the cell
not revisited later, a processed cell's tanbeta is strictly positive from
the end of its own distribution step onward — it is either the sum of
strictly positive `slope × contour` terms over its strictly lower slots or
the strictly positive flat-area fallback — so the divisions by tanbeta in
the routing step and at finalization never divide by zero. -/
theorem claim_C6 (m : MapSize) (fm : FineGrid) (pre suf : List Coord) (c : Coord)
    (hD : 0 < m.DMASS)
    (hsplit : visitOrder m = pre ++ c :: suf)
    (hsuf : c ∉ suf) :
    0 < (sweepPrefix m fm (pre ++ [c])).tanbeta c.y c.x ∧
    (sweep m fm).tanbeta c.y c.x = (sweepPrefix m fm (pre ++ [c])).tanbeta c.y c.x ∧
    (sweep m fm).tanbeta c.y c.x ≠ 0 := by
  have hnn : NonnegState (sweepPrefix m fm pre) :=
    foldl_nonneg (le_of_lt hD) pre (initState m) (initState_nonneg m)
  have hstep : sweepPrefix m fm (pre ++ [c]) =
      processCell8 m fm (sweepPrefix m fm pre) c := by
    show (pre ++ [c]).foldl (processCell8 m fm) (initState m) = _
    rw [List.foldl_append]
    rfl
  have hpos : 0 < (sweepPrefix m fm (pre ++ [c])).tanbeta c.y c.x := by
    rw [hstep]
    exact step_tb_pos hD (hnn.2 c.y c.x)
  have hpersist : (sweep m fm).tanbeta c.y c.x =
      (sweepPrefix m fm (pre ++ [c])).tanbeta c.y c.x := by
    have hassoc : pre ++ c :: suf = (pre ++ [c]) ++ suf := by simp
    have hs : sweep m fm =
        suf.foldl (processCell8 m fm) (sweepPrefix m fm (pre ++ [c])) := by
      show (visitOrder m).foldl (processCell8 m fm) (initState m) = _
      rw [hsplit, hassoc, List.foldl_append]
      rfl
    rw [hs]
    apply foldl_tanbeta_const
    intro d hd
    by_contra hcoord
    push_neg at hcoord
    have hdc : d = c := by
      ext
      · exact hcoord.2
      · exact hcoord.1
    exact hsuf (hdc ▸ hd)
  exact ⟨hpos, hpersist, by rw [hpersist]; exact ne_of_gt hpos⟩

/-- Claim C6, witness: on the 1×2 scenario the left cell's tanbeta is
positive from its own step onward (it equals 6 there). -/
theorem claim_C6_witness :
    0 < (sweepPrefix map12 fm12 ([] ++ [⟨0, 0⟩])).tanbeta 0 0 ∧
    (sweep map12 fm12).tanbeta 0 0 = (sweepPrefix map12 fm12 ([] ++ [⟨0, 0⟩])).tanbeta 0 0 ∧
    (sweep map12 fm12).tanbeta 0 0 ≠ 0 :=
  claim_C6 map12 fm12 [] [⟨1, 0⟩] ⟨0, 0⟩ (by norm_num [map12]) rfl
    (by with_unfolding_all decide)

theorem foldlM_processCell_eight (m : MapSize) (fm : FineGrid) :
    ∀ (l : List Coord) (st : TopoState),
      l.foldlM (processCell 8 m fm) st = Except.ok (l.foldl (processCell8 m fm) st) := by
  intro l
  induction l with
  | nil => intro st; rfl
  | cons d rest ih =>
      intro st
      show (processCell 8 m fm st d) >>= (fun s => rest.foldlM (processCell 8 m fm) s) = _
      rw [show processCell 8 m fm st d = Except.ok (processCell8 m fm st d) from rfl]
      show rest.foldlM (processCell 8 m fm) (processCell8 m fm st d) = _
      exact ih _

theorem sweepE_eight (m : MapSize) (fm : FineGrid) :
    sweepE 8 m fm = Except.ok (sweep m fm) :=
  foldlM_processCell_eight m fm (visitOrder m) (initState m)

/-- Claim C7, counterexample.  The claim says that if `tanbeta == 0` for a
processed cell at the finalization pass, the computation raises an explicit
error rather than writing a value.  The finalization loop (lines 240-245)
contains no such guard: fed an accumulator state whose tanbeta is zero at
the (processed) single basin cell, it raises nothing and overwrites the
cell's `TopoIndex` with the degenerate quotient `a/0` (`±inf`/`NaN` in the
C's float arithmetic; the junk value `0` of the exact model's division by
zero). -/
theorem claim_C7_counterexample :
    stZero.tanbeta 0 0 = 0 ∧
    (⟨0, 0⟩ : Coord) ∈ map11.orderedCellsFine ∧
    finalizeE map11 fm11 stZero = Except.ok (finalize map11 fm11 stZero) ∧
    finalize map11 fm11 stZero 0 0 ≠ fm11 0 0 ∧
    (finalize map11 fm11 stZero 0 0).TopoIndex = 0 := by
  refine ⟨rfl, by with_unfolding_all decide, rfl, ?_, ?_⟩
  · with_unfolding_all decide
  · with_unfolding_all decide

/-- Claim C7, amended.  The finalization pass performs no `tanbeta == 0`
check and never raises: it unconditionally writes `a/tanbeta` (the argument
of the log) for every processed cell, and the whole computation returns
normally in the supported configuration.  The degenerate case is
unreachable in an actual run with positive cell size: every processed
cell's tanbeta is nonzero at finalization. -/
theorem claim_C7_amended (m : MapSize) (fm : FineGrid) (c : Coord)
    (hD : 0 < m.DMASS) (hc : c ∈ m.orderedCellsFine) :
    calcTopoIndex 8 m fm = Except.ok (sweep m fm, finalize m fm (sweep m fm)) ∧
    (sweep m fm).tanbeta c.y c.x ≠ 0 ∧
    (∀ st : TopoState, finalizeE m fm st = Except.ok (finalize m fm st)) := by
  refine ⟨?_, ne_of_gt (sweep_tanbeta_pos hD hc), fun st => rfl⟩
  unfold calcTopoIndex
  rw [sweepE_eight]
  rfl

/-- Claim C7, witness for the amended theorem, on the 1×2 scenario. -/
theorem claim_C7_witness :
    calcTopoIndex 8 map12 fm12 =
      Except.ok (sweep map12 fm12, finalize map12 fm12 (sweep map12 fm12)) ∧
    (sweep map12 fm12).tanbeta 0 0 ≠ 0 ∧
    (∀ st : TopoState, finalizeE map12 fm12 st = Except.ok (finalize map12 fm12 st)) :=
  claim_C7_amended map12 fm12 ⟨0, 0⟩ (by norm_num [map12]) (by with_unfolding_all decide)

/-- Claim C8, counterexample.  The claim says an unsupported neighbor count
(anything other than 8) makes the computation fail fatally, detected at
initialization before any accumulator grid is mutated.  The dispatch sits
INSIDE the per-cell sweep loop (lines 158-237): with zero cells in
`OrderedCellsfine` the loop body never runs, and the computation with
neighbor count 4 completes successfully instead of failing. -/
theorem claim_C8_counterexample :
    (4 : ℕ) ≠ 8 ∧
    calcTopoIndex 4 mapNil fm12 = Except.ok (initState mapNil, fm12) :=
  ⟨by decide, rfl⟩

/-- Claim C8, amended.  With an unsupported neighbor count and at least one
cell to process, the computation aborts at the first cell of the
distribution sweep — after the area grid has been initialized to the cell
areas (lines 134-138) but before any distribution writes: at the abort the
grids are exactly the initialized state, whose tanbeta and contour entries
are still all zero. -/
theorem claim_C8_amended (ndirs : ℕ) (m : MapSize) (fm : FineGrid) (c : Coord)
    (cs : List Coord) (hn : ndirs ≠ 8) (horder : m.orderedCellsFine = c :: cs) :
    calcTopoIndex ndirs m fm = Except.error (initState m) ∧
    (∀ py px, (initState m).tanbeta py px = 0 ∧ (initState m).contour py px = 0) := by
  refine ⟨?_, fun py px => ⟨rfl, rfl⟩⟩
  have hne : visitOrder m ≠ [] := by
    unfold visitOrder
    rw [horder]
    simp
  obtain ⟨d, l, hdl⟩ := List.exists_cons_of_ne_nil hne
  unfold calcTopoIndex sweepE
  rw [hdl]
  show (((processCell ndirs m fm (initState m) d) >>=
    (fun s => l.foldlM (processCell ndirs m fm) s)).map _) = _
  rw [show processCell ndirs m fm (initState m) d = Except.error (initState m) from
    if_neg hn]
  rfl

/-- Claim C8, witness for the amended theorem: neighbor count 4 on the 1×2
scenario aborts with the freshly initialized grids. -/
theorem claim_C8_witness :
    calcTopoIndex 4 map12 fm12 = Except.error (initState map12) ∧
    (∀ py px, (initState map12).tanbeta py px = 0 ∧ (initState map12).contour py px = 0) :=
  claim_C8_amended 4 map12 fm12 ⟨1, 0⟩ [⟨0, 0⟩] (by decide) rfl

/-- Claim C9: frame effect.  Provided every listed cell is on the grid and
inside the basin mask (the spec's input invariant), a cell that is off the
grid or outside the mask is never written: its `FINEPIX` record (including
`TopoIndex`) is untouched by the computation, and no area is ever routed
into it — its accumulator stays at its initial zero — because an
out-of-basin or off-grid neighbor reads the sentinel, is replaced by the
center elevation, and thus never qualifies as strictly lower. -/
theorem claim_C9 (m : MapSize) (fm : FineGrid) (py px : ℤ)
    (hvalid : ∀ c ∈ m.orderedCellsFine,
      valid_cell_fine m c.x c.y ∧ (fm c.y c.x).Mask = true)
    (hp : ¬ valid_cell_fine m px py ∨ (fm py px).Mask = false) :
    finalize m fm (sweep m fm) py px = fm py px ∧
    (sweep m fm).a py px = (initState m).a py px ∧
    (initState m).a py px = 0 := by
  have hnotmem : ∀ c ∈ m.orderedCellsFine, ¬ (c.y = py ∧ c.x = px) := by
    rintro c hc ⟨h1, h2⟩
    obtain ⟨hv, hM⟩ := hvalid c hc
    rw [h1, h2] at hv hM
    rcases hp with hp | hp
    · exact hp hv
    · rw [hp] at hM
      exact Bool.false_ne_true hM
  exact ⟨finalize_write_not_mem hnotmem,
    foldl_a_const_of_invalid hp (visitOrder m) (initState m),
    initA_not_mem hnotmem⟩

/-- Claim C9, witness: the off-grid point `(x,y) = (5,5)` of the 1×2
scenario is untouched. -/
theorem claim_C9_witness :
    finalize map12 fm12 (sweep map12 fm12) 5 5 = fm12 5 5 ∧
    (sweep map12 fm12).a 5 5 = (initState map12).a 5 5 ∧
    (initState map12).a 5 5 = 0 :=
  claim_C9 map12 fm12 5 5 (by with_unfolding_all decide)
    (Or.inl (by with_unfolding_all decide))

/-- Claim C10: sentinel collision.  An in-grid, in-basin cell whose
recorded DEM elevation is exactly the `OUTSIDEBASIN` sentinel is treated by
every neighbor scan as if it were outside the basin: the slot reading it is
replaced by the scanning cell's own elevation, hence never strictly lower
— even when the sentinel lies strictly below that cell's elevation — and
the sentinel-valued cell never receives routed area. -/
theorem claim_C10 (m : MapSize) (fm : FineGrid) (py px : ℤ)
    (_hvalid : valid_cell_fine m px py) (_hmask : (fm py px).Mask = true)
    (hdem : (fm py px).Dem = OUTSIDEBASIN) :
    (∀ (x y : ℤ) (n : Fin 8), x + xneighbor n = px → y + yneighbor n = py →
      effElev m fm x y n = (fm y x).Dem ∧ ¬ isLower m fm x y n) ∧
    (sweep m fm).a py px = (initState m).a py px :=
  ⟨fun x y n hx hy => sentinel_neighbor_flat hdem x y n hx hy,
    foldl_a_const_of_sentinel hdem (visitOrder m) (initState m)⟩

/-- Claim C10, witness: in `fmSen` the right cell is in the basin with
`Dem = 0 = OUTSIDEBASIN`, strictly below the left cell's elevation 5, yet
the left cell's slot 3 is flattened to 5 and the right cell receives no
area. -/
theorem claim_C10_witness :
    (∀ (x y : ℤ) (n : Fin 8), x + xneighbor n = 1 → y + yneighbor n = 0 →
      effElev mapSen fmSen x y n = (fmSen y x).Dem ∧ ¬ isLower mapSen fmSen x y n) ∧
    (sweep mapSen fmSen).a 0 1 = (initState mapSen).a 0 1 :=
  claim_C10 mapSen fmSen 0 1 (by with_unfolding_all decide)
    (by with_unfolding_all decide) (by with_unfolding_all decide)
